import Mathlib

/-!
Verification development for `twin_bot.py`: a program that classifies human
utterances into intents through a remote HTTP service (with a cache and a
retry loop under rate limiting) and merges conversation transcripts into a
dialog tree.

The Python source is shallowly embedded below. Network responses are modelled
by a function from the attempt index to an HTTP response; the nondeterministic
jitter of `random.random()` is modelled by an explicit jitter argument; the
mutable cache and the mutable tree are threaded explicitly; Python `assert`
failures and uncaught exceptions surface as `none` / a `crashed` outcome.
-/

set_option autoImplicit false

/-- Constant `HTTP_STATUS_TOO_MANY_REQUESTS = 429` from the source. -/
def HTTP_STATUS_TOO_MANY_REQUESTS : Nat := 429

/-- Constant `HTTP_STATUS_OK = 200` from the source. -/
def HTTP_STATUS_OK : Nat := 200

/-- Constant `MAX_REQUEST_ATTEMPTS = 5` from the source. -/
def MAX_REQUEST_ATTEMPTS : Nat := 5

/-- A server response: the HTTP status plus the value that
`resp_json["intent"]["name"]` would yield when the body is read. -/
structure HttpResp where
  status : Nat
  intentName : String

/-- The two exception classes that `_parse_phrase_retry` can raise:
`HttpError` carrying the status, and `TimeoutError`. -/
inductive ParseError where
  | httpError (status : Nat)
  | timeoutError
deriving DecidableEq

/-- Observable behaviour of one `_parse_phrase_retry` call: how many
requests were issued, which sleep intervals were awaited, and the
returned intent or raised error. -/
structure RetryTrace where
  requests : Nat
  sleeps : List ℚ
  result : Except ParseError String

/-- Embeds `IntentParser._get_sleep_time`: `attempt / 2 + random.random()`,
with the random draw passed in as `jitter`. -/
def getSleepTime (attempt : Nat) (jitter : ℚ) : ℚ :=
  (attempt : ℚ) / 2 + jitter

/-- The retry loop body of `IntentParser._parse_phrase_retry`, recursing over
the remaining attempt indices (`for attempt in range(MAX_REQUEST_ATTEMPTS)`).
Falling off the loop raises `TimeoutError`. -/
def retryFrom (server : Nat → HttpResp) (jitter : Nat → ℚ) :
    List Nat → RetryTrace
  | [] => ⟨0, [], .error .timeoutError⟩
  | a :: rest =>
    let resp := server a
    if resp.status = HTTP_STATUS_OK then
      ⟨1, [], .ok resp.intentName⟩
    else if resp.status = HTTP_STATUS_TOO_MANY_REQUESTS then
      let r := retryFrom server jitter rest
      ⟨r.requests + 1, getSleepTime a (jitter a) :: r.sleeps, r.result⟩
    else
      ⟨1, [], .error (.httpError resp.status)⟩

/-- Embeds `IntentParser._parse_phrase_retry` for one phrase. The entry
assertion `assert phrase` is guaranteed by the caller `parse_phrases`, which
dispatches only non-blank phrases, so the phrase itself does not influence
the control flow and is factored into `server`. -/
def parsePhraseRetry (server : Nat → HttpResp) (jitter : Nat → ℚ) : RetryTrace :=
  retryFrom server jitter (List.range MAX_REQUEST_ATTEMPTS)

/-- The cache `IntentParser._intents_by_phrase_cache`, modelled as an
association list with Python dict semantics (at most one entry per key). -/
def Cache := List (String × String)

/-- Dict lookup: `cache.get(key, None)`. -/
def cacheLookup : Cache → String → Option String
  | [], _ => none
  | (k, v) :: rest, key => if k = key then some v else cacheLookup rest key

/-- Dict assignment `cache[key] = val`: replace in place if the key exists,
otherwise append. -/
def cacheInsert : Cache → String → String → Cache
  | [], key, val => [(key, val)]
  | (k, v) :: rest, key, val =>
    if k = key then (key, val) :: rest else (k, v) :: cacheInsert rest key val

/-- Embeds Python `str.strip()`: drop leading and trailing whitespace
characters. (Defined on the underlying character list so that it reduces by
`rfl` on literals.) -/
def strip (s : String) : String :=
  String.mk (((s.data.dropWhile Char.isWhitespace).reverse.dropWhile
    Char.isWhitespace).reverse)

/-- The filtering loop at the top of `IntentParser.parse_phrases`: strip each
phrase, drop blanks, drop phrases already in the cache. Order and multiplicity
of the remaining occurrences are preserved, exactly as in the source. -/
def newPhrasesOf (cache : Cache) (phrases : List String) : List String :=
  (phrases.map strip).filter
    (fun p => !(p == "") && (cacheLookup cache p).isNone)

/-- The first exception raised by the gathered coroutines, if any. -/
def firstErr : List (Except ParseError String) → Option ParseError
  | [] => none
  | .ok _ :: rest => firstErr rest
  | .error e :: _ => some e

/-- The cache-population loop after the gather: insert each phrase/intent
pair in order. -/
def commitResults : Cache → List (String × Except ParseError String) → Cache
  | c, [] => c
  | c, (p, .ok intent) :: rest => commitResults (cacheInsert c p intent) rest
  | c, (_, .error _) :: rest => commitResults c rest

/-- Observable behaviour of one `IntentParser.parse_phrases` call: the list
of phrases dispatched to the network (one `_parse_phrase_retry` coroutine
each), the cache afterwards, and the propagated exception, if any. -/
structure ParseResult where
  dispatched : List String
  cache : Cache
  err : Option ParseError

/-- Embeds `IntentParser.parse_phrases`. The server behaviour is a function
from phrase and attempt index to a response; jitter likewise. On an
exception from the gather, the cache is left untouched (the population loop
runs only after a successful gather). -/
def parsePhrases (server : String → Nat → HttpResp) (jitter : String → Nat → ℚ)
    (cache : Cache) (phrases : List String) : ParseResult :=
  let newPhrases := newPhrasesOf cache phrases
  let results := newPhrases.map
    (fun p => (p, (parsePhraseRetry (server p) (jitter p)).result))
  { dispatched := newPhrases
    cache :=
      match firstErr (results.map (fun pr => pr.2)) with
      | some _ => cache
      | none => commitResults cache results
    err := firstErr (results.map (fun pr => pr.2)) }

/-- Embeds `IntentParser.get_intent`; the `None` argument case is the
`phrase is None` branch. -/
def getIntent (cache : Cache) (phrase : Option String) : Option String :=
  match phrase with
  | none => none
  | some p =>
    let q := strip p
    if q = "" then none else cacheLookup cache q

/-- A first sanity example used nowhere below: an always-OK server answers on
the first attempt. -/
theorem retry_ok_first :
    parsePhraseRetry (fun _ => ⟨200, "greet"⟩) (fun _ => 0)
      = ⟨1, [], .ok "greet"⟩ := rfl

/-- Claim C2: if every classification request returns status 429, the retry
loop performs exactly `MAX_REQUEST_ATTEMPTS = 5` requests and then raises
the timeout-class error, not a hard `HttpError`. -/
theorem parsePhraseRetry_rate_limited_five_attempts
    (server : Nat → HttpResp) (jitter : Nat → ℚ)
    (h : ∀ a, (server a).status = HTTP_STATUS_TOO_MANY_REQUESTS) :
    (parsePhraseRetry server jitter).requests = 5 ∧
    (parsePhraseRetry server jitter).result = .error .timeoutError := by
  have hr : List.range MAX_REQUEST_ATTEMPTS = [0, 1, 2, 3, 4] := rfl
  simp only [parsePhraseRetry, hr, retryFrom, h]
  norm_num [HTTP_STATUS_OK, HTTP_STATUS_TOO_MANY_REQUESTS]

/-- Witness for C2 at a concrete always-rate-limited server. -/
theorem parsePhraseRetry_rate_limited_five_attempts_witness :
    (parsePhraseRetry (fun _ => ⟨429, ""⟩) (fun _ => 0)).requests = 5 ∧
    (parsePhraseRetry (fun _ => ⟨429, ""⟩) (fun _ => 0)).result
      = .error .timeoutError :=
  parsePhraseRetry_rate_limited_five_attempts (fun _ => ⟨429, ""⟩) (fun _ => 0)
    (fun _ => rfl)

/-- Embeds the `Message` namedtuple: `is_bot` flag and `text`. -/
structure Message where
  is_bot : Bool
  text : String
deriving DecidableEq

/-- Embeds `DialogTreeNode`: speaker flag, optional intent, the phrase set
(modelled as a duplicate-free list, insertion appending), and the
`replies_by_intent` dict (association list keyed by the optional intent). -/
inductive DialogTreeNode : Type where
  | mk (is_bot : Bool) (intent : Option String) (phrases : List String)
      (replies_by_intent : List (Option String × DialogTreeNode))

namespace DialogTreeNode

/-- Field accessor for the speaker flag. -/
def is_bot : DialogTreeNode → Bool
  | .mk b _ _ _ => b

/-- Field accessor for the intent. -/
def intent : DialogTreeNode → Option String
  | .mk _ i _ _ => i

/-- Field accessor for the phrase set. -/
def phrases : DialogTreeNode → List String
  | .mk _ _ p _ => p

/-- Field accessor for the replies dict. -/
def replies_by_intent : DialogTreeNode → List (Option String × DialogTreeNode)
  | .mk _ _ _ r => r

end DialogTreeNode

/-- Set insertion for the `phrases` field: `self.phrases.add(x)`. -/
def setInsert (s : List String) (x : String) : List String :=
  if x ∈ s then s else s ++ [x]

/-- Lookup in the `replies_by_intent` dict. -/
def dictLookup : List (Option String × DialogTreeNode) → Option String →
    Option DialogTreeNode
  | [], _ => none
  | (k, n) :: rest, key => if k = key then some n else dictLookup rest key

/-- Assignment in the `replies_by_intent` dict: replace in place or append. -/
def dictInsert : List (Option String × DialogTreeNode) → Option String →
    DialogTreeNode → List (Option String × DialogTreeNode)
  | [], key, node => [(key, node)]
  | (k, n) :: rest, key, node =>
    if k = key then (key, node) :: rest else (k, n) :: dictInsert rest key node

/-- Embeds `DialogTreeNode.add_reply`. Returns the updated parent together
with the child the Python method returns (the child is aliased inside the
parent in the source; here the pair makes both values explicit). `none`
models an `AssertionError`: the intent/speaker contract asserts, the
non-empty phrase assert, or the cross-transcript consistency asserts. -/
def addReply (node : DialogTreeNode) (is_bot : Bool) (phrase : String)
    (intent : Option String) : Option (DialogTreeNode × DialogTreeNode) :=
  if is_bot && intent.isSome then none
  else if !is_bot && intent.isNone then none
  else if phrase = "" then none
  else
    match dictLookup node.replies_by_intent intent with
    | some next =>
      if next.is_bot = is_bot ∧ next.intent = intent then
        let next' := DialogTreeNode.mk next.is_bot next.intent
          (setInsert next.phrases phrase) next.replies_by_intent
        some (DialogTreeNode.mk node.is_bot node.intent node.phrases
          (dictInsert node.replies_by_intent intent next'), next')
      else none
    | none =>
      let next' := DialogTreeNode.mk is_bot intent [phrase] []
      some (DialogTreeNode.mk node.is_bot node.intent node.phrases
        (dictInsert node.replies_by_intent intent next'), next')

/-- The intent computed for one turn of the walk in `add_dialog`:
`get_intent(phrase) if not is_bot else None`. -/
def turnIntent (getI : String → Option String) (m : Message) : Option String :=
  if m.is_bot then none else getI m.text

/-- The walk over `messages[1:]` in `DialogTree.add_dialog`: each turn is
attached via `add_reply` to the current node and the walk descends into the
child. Because in the source the child is mutated in place while aliased
inside the parent, the pure rendering reinstalls the recursively updated
child under its key. `none` models an uncaught `AssertionError` (including
the `assert is_bot or intent is not None` check before each step). -/
def walkReplies (node : DialogTreeNode) (getI : String → Option String) :
    List Message → Option DialogTreeNode
  | [] => some node
  | m :: rest =>
    if !m.is_bot && (turnIntent getI m).isNone then none
    else
      match addReply node m.is_bot m.text (turnIntent getI m) with
      | none => none
      | some (node', child) =>
        match walkReplies child getI rest with
        | none => none
        | some child' =>
          some (DialogTreeNode.mk node'.is_bot node'.intent node'.phrases
            (dictInsert node'.replies_by_intent (turnIntent getI m) child'))

/-- Embeds `DialogTree.add_dialog`: empty transcripts are no-ops, a leading
human turn is dropped (a no-op if nothing remains), the first remaining
turn must be an agent turn (assert), its raw text joins the root phrase
set, and the remaining turns are walked down the tree. -/
def addDialog (tree : DialogTreeNode) (messages : List Message)
    (getI : String → Option String) : Option DialogTreeNode :=
  match messages with
  | [] => some tree
  | m0 :: rest =>
    match if m0.is_bot then m0 :: rest else rest with
    | [] => some tree
    | first :: others =>
      if !first.is_bot then none
      else
        walkReplies (DialogTreeNode.mk tree.is_bot tree.intent
          (setInsert tree.phrases first.text) tree.replies_by_intent)
          getI others

/-- The tree the driver starts from: `DialogTree.__init__` sets
`is_bot = True`, `intent = None`, empty phrase set, empty replies. -/
def emptyDialogTree : DialogTreeNode := .mk true none [] []

/-- The phrases sent to `parse_phrases` by `main` for one transcript:
`[text for is_bot, text in messages if not is_bot]`. -/
def humanTexts (msgs : List Message) : List String :=
  (msgs.filter (fun m => !m.is_bot)).map (fun m => m.text)

/-- Outcome of the driver loop in `main`: either it falls through to the
final `print(json.dumps(...))` with the merged tree and the list of
transcripts skipped with a diagnostic, or an uncaught exception aborts the
run before any output. -/
inductive RunResult where
  | finished (tree : DialogTreeNode) (diagnostics : List (List Message))
  | crashed

/-- Embeds the per-transcript loop of `main`: classify the human turns of
the transcript, then merge it. Only `HttpError` is caught (diagnostic
printed, loop continues); a `TimeoutError` or an `AssertionError`
propagates out of `main` and the run crashes with no output. -/
def mainLoop (server : String → Nat → HttpResp) (jitter : String → Nat → ℚ) :
    Cache → DialogTreeNode → List (List Message) → List (List Message) →
    RunResult
  | _, tree, diags, [] => .finished tree diags
  | cache, tree, diags, msgs :: rest =>
    let pr := parsePhrases server jitter cache (humanTexts msgs)
    match pr.err with
    | some (.httpError _) => mainLoop server jitter cache tree (diags ++ [msgs]) rest
    | some .timeoutError => .crashed
    | none =>
      match addDialog tree msgs (fun p => getIntent pr.cache (some p)) with
      | none => .crashed
      | some tree' => mainLoop server jitter pr.cache tree' diags rest

/-- Concrete server stub answering every request with 200 and intent
"greet". -/
def okServer : String → Nat → HttpResp := fun _ _ => ⟨200, "greet"⟩

/-- Concrete server stub answering every request with status 500. -/
def hardServer : String → Nat → HttpResp := fun _ _ => ⟨500, ""⟩

/-- Concrete server stub answering every request with status 429. -/
def rlServer : String → Nat → HttpResp := fun _ _ => ⟨429, ""⟩

/-- Concrete jitter assignment: every draw is 0. -/
def zeroJitter : String → Nat → ℚ := fun _ _ => 0

/-- The dispatched list of a `parse_phrases` call is the filtered phrase
list, whatever the outcome of the gather. -/
theorem parsePhrases_dispatched (server : String → Nat → HttpResp)
    (jitter : String → Nat → ℚ) (cache : Cache) (phrases : List String) :
    (parsePhrases server jitter cache phrases).dispatched
      = newPhrasesOf cache phrases := rfl

/-- Membership in the filtered phrase list implies the phrase is non-blank
and absent from the cache, and is the trim of some input occurrence. -/
theorem mem_newPhrasesOf (cache : Cache) (phrases : List String) (p : String)
    (hp : p ∈ newPhrasesOf cache phrases) :
    cacheLookup cache p = none ∧ p ≠ "" ∧ p ∈ phrases.map strip := by
  unfold newPhrasesOf at hp
  have h1 := List.mem_filter.mp hp
  refine ⟨?_, ?_, h1.1⟩
  · have := (Bool.and_eq_true _ _).mp h1.2 |>.2
    exact Option.isNone_iff_eq_none.mp this
  · have := (Bool.and_eq_true _ _).mp h1.2 |>.1
    simp only [Bool.not_eq_true'] at this
    intro hcon
    rw [hcon] at this
    simp at this

/-- A non-blank phrase not in the cache survives the filter once per
occurrence of its trimmed form in the input list. -/
theorem count_newPhrasesOf (cache : Cache) (phrases : List String) (p : String)
    (hc : cacheLookup cache p = none) (hne : p ≠ "") :
    (newPhrasesOf cache phrases).count p = (phrases.map strip).count p := by
  unfold newPhrasesOf
  induction phrases with
  | nil => rfl
  | cons q rest ih =>
    simp only [List.map_cons, List.filter_cons]
    by_cases hq : strip q = p
    · rw [hq]
      have hpred : (!(p == "") && (cacheLookup cache p).isNone) = true := by
        simp [hne, hc]
      rw [hpred]
      simp [List.count_cons, ih]
    · by_cases hf : (!(strip q == "") && (cacheLookup cache (strip q)).isNone) = true
      · rw [hf]
        simp [List.count_cons, ih, hq]
      · rw [Bool.not_eq_true] at hf
        rw [hf]
        simp [List.count_cons, ih, hq]

/-- Inserting under a different key leaves a cache lookup unchanged. -/
theorem cacheLookup_cacheInsert_ne (c : Cache) (k val p : String) (h : p ≠ k) :
    cacheLookup (cacheInsert c k val) p = cacheLookup c p := by
  induction c with
  | nil =>
    simp only [cacheInsert, cacheLookup]
    rw [if_neg (fun hk => h hk.symm)]
  | cons e rest ih =>
    obtain ⟨ek, ev⟩ := e
    simp only [cacheInsert]
    by_cases hek : ek = k
    · rw [if_pos hek]
      have hkp : ¬ k = p := fun hk => h hk.symm
      have hekp : ¬ ek = p := fun hk => hkp (hek ▸ hk)
      simp only [cacheLookup]
      rw [if_neg hkp, if_neg hekp]
    · rw [if_neg hek]
      simp only [cacheLookup]
      by_cases hep : ek = p
      · rw [if_pos hep, if_pos hep]
      · rw [if_neg hep, if_neg hep, ih]

/-- Committing results whose keys all differ from `p` preserves the lookup
of `p`. -/
theorem commitResults_preserves (p v : String) :
    ∀ (L : List (String × Except ParseError String)) (c : Cache),
      (∀ q ∈ L, q.1 ≠ p) → cacheLookup c p = some v →
      cacheLookup (commitResults c L) p = some v := by
  intro L
  induction L with
  | nil => intro c _ h; exact h
  | cons q rest ih =>
    intro c hkeys h
    obtain ⟨qp, qr⟩ := q
    cases qr with
    | ok intent =>
      simp only [commitResults]
      have hne : p ≠ qp :=
        fun hp => hkeys (qp, .ok intent) (List.mem_cons_self _ _) hp.symm
      refine ih (cacheInsert c qp intent)
        (fun r hr => hkeys r (List.mem_cons_of_mem _ hr)) ?_
      rw [cacheLookup_cacheInsert_ne c qp intent p hne]
      exact h
    | error e =>
      simp only [commitResults]
      exact ih c (fun r hr => hkeys r (List.mem_cons_of_mem _ hr)) h

/-- A cache entry present before a `parse_phrases` call is still present,
with the same intent, afterwards: the filtered phrases are all absent from
the cache, so no insertion can overwrite an existing entry. -/
theorem parsePhrases_cache_preserves (server : String → Nat → HttpResp)
    (jitter : String → Nat → ℚ) (cache : Cache) (phrases : List String)
    (p v : String) (h : cacheLookup cache p = some v) :
    cacheLookup (parsePhrases server jitter cache phrases).cache p = some v := by
  have hkeys : ∀ q ∈ (newPhrasesOf cache phrases).map
      (fun q => (q, (parsePhraseRetry (server q) (jitter q)).result)), q.1 ≠ p := by
    intro q hq hqp
    obtain ⟨r, hr, hrq⟩ := List.mem_map.mp hq
    rw [← hrq] at hqp
    have hrp : r = p := hqp
    have hnone := (mem_newPhrasesOf cache phrases r hr).1
    rw [hrp, h] at hnone
    exact Option.noConfusion hnone
  simp only [parsePhrases]
  split
  · exact h
  · exact commitResults_preserves p v _ cache hkeys h

/-- Claim C3 fails on the code: deduplication happens only against the
cache, not within one call, so an input phrase occurring twice with an
empty cache is dispatched (and hence requested) twice in the same
`parse_phrases` call. -/
theorem parsePhrases_duplicate_dispatch :
    (parsePhrases okServer zeroJitter [] ["dup", "dup"]).dispatched
      = ["dup", "dup"] ∧
    ((parsePhrases okServer zeroJitter [] ["dup", "dup"]).dispatched.count "dup")
      = 2 :=
  ⟨rfl, rfl⟩

/-- Claim C3, amended: within one `parse_phrases` call, every dispatched
phrase is non-blank and absent from the cache (cached phrases are never
re-requested), and a non-blank uncached phrase is dispatched once per
occurrence of its trimmed form in the input sequence — not at most once. -/
theorem parsePhrases_dispatch_characterisation (server : String → Nat → HttpResp)
    (jitter : String → Nat → ℚ) (cache : Cache) (phrases : List String) :
    (∀ p, p ∈ (parsePhrases server jitter cache phrases).dispatched →
        cacheLookup cache p = none ∧ p ≠ "") ∧
    (∀ p, cacheLookup cache p = none → p ≠ "" →
        (parsePhrases server jitter cache phrases).dispatched.count p
          = (phrases.map strip).count p) := by
  constructor
  · intro p hp
    rw [parsePhrases_dispatched] at hp
    have := mem_newPhrasesOf cache phrases p hp
    exact ⟨this.1, this.2.1⟩
  · intro p hc hne
    rw [parsePhrases_dispatched]
    exact count_newPhrasesOf cache phrases p hc hne

/-- Witness for the amended C3: with cache `[("hi", "A")]`, the input
`["hi", "new", "new"]` dispatches nothing for the cached phrase and one
occurrence each for the uncached duplicate. -/
theorem parsePhrases_dispatch_characterisation_witness :
    (cacheLookup [("hi", "A")] "new" = none ∧ ("new" : String) ≠ "") ∧
    (parsePhrases okServer zeroJitter [("hi", "A")] ["hi", "new", "new"]).dispatched.count "new"
      = (["hi", "new", "new"].map strip).count "new" :=
  ⟨⟨rfl, by decide⟩,
    (parsePhrases_dispatch_characterisation okServer zeroJitter [("hi", "A")]
      ["hi", "new", "new"]).2 "new" rfl (by decide)⟩

/-- Claim C4: a later `parse_phrases` call dispatches network requests only
for phrases absent from the cache (so phrases resolved by an earlier call
are never re-requested), and every existing cache entry survives the call
unchanged, making `get_intent` answers stable across calls. -/
theorem parsePhrases_idempotent_caching (server : String → Nat → HttpResp)
    (jitter : String → Nat → ℚ) (cache : Cache) (phrases : List String) :
    (∀ p, p ∈ (parsePhrases server jitter cache phrases).dispatched →
        cacheLookup cache p = none) ∧
    (∀ p v, cacheLookup cache p = some v →
        cacheLookup (parsePhrases server jitter cache phrases).cache p = some v) ∧
    (∀ p v, getIntent cache (some p) = some v →
        getIntent (parsePhrases server jitter cache phrases).cache (some p) = some v) := by
  refine ⟨?_, ?_, ?_⟩
  · intro p hp
    rw [parsePhrases_dispatched] at hp
    exact (mem_newPhrasesOf cache phrases p hp).1
  · intro p v h
    exact parsePhrases_cache_preserves server jitter cache phrases p v h
  · intro p v h
    unfold getIntent at h ⊢
    by_cases ht : strip p = ""
    · simp [ht] at h
    · simp only [ht, if_false] at h ⊢
      exact parsePhrases_cache_preserves server jitter cache phrases (strip p) v h

/-- Witness for C4: after a first call caches "hi", a second overlapping
call leaves the entry intact. -/
theorem parsePhrases_idempotent_caching_witness :
    cacheLookup (parsePhrases okServer zeroJitter
        (parsePhrases okServer zeroJitter [] ["hi"]).cache ["hi", "new"]).cache
      "hi" = some "greet" :=
  (parsePhrases_idempotent_caching okServer zeroJitter
    (parsePhrases okServer zeroJitter [] ["hi"]).cache ["hi", "new"]).2.1
    "hi" "greet" rfl

/-- Claim C7: a phrase that strips to the empty string (and the `None`
phrase) is looked up as `None`, and its presence in the input of
`parse_phrases` changes nothing: it is never dispatched to the network and
never stored in the cache. -/
theorem blank_phrases_are_absent (server : String → Nat → HttpResp)
    (jitter : String → Nat → ℚ) (cache : Cache) (p : String)
    (ps : List String) (hp : strip p = "") :
    getIntent cache (some p) = none ∧ getIntent cache none = none ∧
    parsePhrases server jitter cache (p :: ps)
      = parsePhrases server jitter cache ps := by
  refine ⟨?_, rfl, ?_⟩
  · unfold getIntent
    simp [hp]
  · unfold parsePhrases newPhrasesOf
    simp [hp]

/-- Witness for C7 with the one-space phrase. -/
theorem blank_phrases_are_absent_witness :
    getIntent [("x", "A")] (some " ") = none ∧
    getIntent [("x", "A")] none = none ∧
    parsePhrases okServer zeroJitter [("x", "A")] [" ", "x"]
      = parsePhrases okServer zeroJitter [("x", "A")] ["x"] :=
  blank_phrases_are_absent okServer zeroJitter [("x", "A")] " " ["x"] rfl

/-- Claim C6: under persistent rate limiting the slept intervals are exactly
`attempt / 2 + jitter` for the 0-indexed attempt counter running through
the loop, each interval lies in `[attempt / 2, attempt / 2 + 1)` when the
jitter draw lies in `[0, 1)`, and for a fixed jitter value the interval
grows strictly with the attempt number. -/
theorem backoff_interval_formula (server : Nat → HttpResp) (jitter : Nat → ℚ)
    (hS : ∀ a, (server a).status = HTTP_STATUS_TOO_MANY_REQUESTS)
    (hj : ∀ a, 0 ≤ jitter a ∧ jitter a < 1) :
    (parsePhraseRetry server jitter).sleeps
      = (List.range MAX_REQUEST_ATTEMPTS).map
          (fun a : Nat => (a : ℚ) / 2 + jitter a) ∧
    (∀ a : Nat, (a : ℚ) / 2 ≤ getSleepTime a (jitter a) ∧
      getSleepTime a (jitter a) < (a : ℚ) / 2 + 1) ∧
    (∀ (a : Nat) (j : ℚ), getSleepTime a j < getSleepTime (a + 1) j) := by
  refine ⟨?_, ?_, ?_⟩
  · have hr : List.range MAX_REQUEST_ATTEMPTS = [0, 1, 2, 3, 4] := rfl
    simp only [parsePhraseRetry, hr, retryFrom, hS, getSleepTime]
    norm_num [HTTP_STATUS_OK, HTTP_STATUS_TOO_MANY_REQUESTS]
  · intro a
    constructor
    · unfold getSleepTime
      linarith [(hj a).1]
    · unfold getSleepTime
      linarith [(hj a).2]
  · intro a j
    unfold getSleepTime
    push_cast
    linarith

/-- Witness for C6 with jitter fixed at one half. -/
theorem backoff_interval_formula_witness :
    (parsePhraseRetry (fun _ => ⟨429, ""⟩) (fun _ => 1 / 2)).sleeps
      = (List.range MAX_REQUEST_ATTEMPTS).map
          (fun a : Nat => (a : ℚ) / 2 + 1 / 2) ∧
    (∀ a : Nat, (a : ℚ) / 2 ≤ getSleepTime a (1 / 2) ∧
      getSleepTime a (1 / 2) < (a : ℚ) / 2 + 1) ∧
    (∀ (a : Nat) (j : ℚ), getSleepTime a j < getSleepTime (a + 1) j) :=
  backoff_interval_formula (fun _ => ⟨429, ""⟩) (fun _ => 1 / 2)
    (fun _ => rfl) (fun _ => ⟨by norm_num, by norm_num⟩)

/-- Claim C1 fails on the code: `main` catches only `HttpError`. A
transcript whose classification exhausts the attempt ceiling under
rate limiting raises `TimeoutError`, which is not caught at the
per-transcript boundary: the run crashes with no diagnostic and no
output at all, instead of skipping the transcript. -/
theorem mainLoop_timeout_uncaught :
    mainLoop rlServer zeroJitter ([] : Cache) emptyDialogTree []
      [[⟨true, "hi"⟩, ⟨false, "q"⟩]] = RunResult.crashed := rfl

/-- Claim C1, amended: a hard classification failure (`HttpError`) during a
transcript's classification step is caught at the per-transcript boundary:
the driver records the transcript in its diagnostics and proceeds to the
next one with the tree (hence all previously successful merges) and cache
unchanged. A timeout-class failure, by contrast, is not caught: it aborts
the whole run with no output. -/
theorem mainLoop_error_propagation (server : String → Nat → HttpResp)
    (jitter : String → Nat → ℚ) (cache : Cache) (tree : DialogTreeNode)
    (diags : List (List Message)) (d : List Message)
    (rest : List (List Message)) :
    (∀ s, (parsePhrases server jitter cache (humanTexts d)).err
        = some (.httpError s) →
      mainLoop server jitter cache tree diags (d :: rest)
        = mainLoop server jitter cache tree (diags ++ [d]) rest) ∧
    ((parsePhrases server jitter cache (humanTexts d)).err = some .timeoutError →
      mainLoop server jitter cache tree diags (d :: rest) = RunResult.crashed) := by
  constructor
  · intro s h
    simp only [mainLoop, h]
  · intro h
    simp only [mainLoop, h]

/-- Witness for the amended C1: a server answering 500 makes the driver
skip the transcript with a diagnostic and still finish with output. -/
theorem mainLoop_error_propagation_witness :
    mainLoop hardServer zeroJitter ([] : Cache) emptyDialogTree []
      [[⟨true, "hi"⟩, ⟨false, "q"⟩]]
      = RunResult.finished emptyDialogTree [[⟨true, "hi"⟩, ⟨false, "q"⟩]] := by
  have h := (mainLoop_error_propagation hardServer zeroJitter [] emptyDialogTree
    [] [⟨true, "hi"⟩, ⟨false, "q"⟩] []).1 500 rfl
  rw [h]
  rfl

/-- Concrete intent lookup used in the branch scenarios: "yes" resolves to
intent "A", "no" to intent "B". -/
def lookupAB (p : String) : Option String :=
  if p = "yes" then some "A" else if p = "no" then some "B" else none

/-- Claim C5: merging two transcripts sharing the agent opening "hi" but
diverging on the human intent yields one root with phrase set {"hi"} and
two sibling children keyed by the intents "A" and "B", each with its own
agent-reply child; and merging two transcripts differing only in the agent
opening wording accumulates both wordings in the single root phrase set
instead of branching. -/
theorem branch_on_intent_and_phrase_merge :
    ((addDialog emptyDialogTree
        [⟨true, "hi"⟩, ⟨false, "yes"⟩, ⟨true, "ok"⟩] lookupAB).bind
      (fun t => addDialog t
        [⟨true, "hi"⟩, ⟨false, "no"⟩, ⟨true, "sorry"⟩] lookupAB))
      = some (.mk true none ["hi"]
          [(some "A", .mk false (some "A") ["yes"]
              [(none, .mk true none ["ok"] [])]),
           (some "B", .mk false (some "B") ["no"]
              [(none, .mk true none ["sorry"] [])])]) ∧
    ((addDialog emptyDialogTree
        [⟨true, "hi"⟩, ⟨false, "yes"⟩, ⟨true, "ok"⟩] lookupAB).bind
      (fun t => addDialog t
        [⟨true, "hello"⟩, ⟨false, "yes"⟩, ⟨true, "ok"⟩] lookupAB))
      = some (.mk true none ["hi", "hello"]
          [(some "A", .mk false (some "A") ["yes"]
              [(none, .mk true none ["ok"] [])])]) :=
  ⟨rfl, rfl⟩

/-- Claim C9: a leading human turn is dropped, so a transcript starting
human-then-agent merges exactly like its remainder; the empty transcript
and the lone-leading-human transcript leave the tree unchanged. -/
theorem leading_human_turn_dropped (t : DialogTreeNode)
    (g : String → Option String) (h a : Message) (rest : List Message)
    (hh : h.is_bot = false) (ha : a.is_bot = true) :
    addDialog t (h :: a :: rest) g = addDialog t (a :: rest) g ∧
    addDialog t [] g = some t ∧
    (∀ h2 : Message, h2.is_bot = false → addDialog t [h2] g = some t) := by
  refine ⟨?_, rfl, ?_⟩
  · simp only [addDialog, hh, ha]
    rfl
  · intro h2 hb
    simp [addDialog, hb]

/-- Witness for C9 on a concrete three-turn transcript. -/
theorem leading_human_turn_dropped_witness :
    addDialog emptyDialogTree
        [⟨false, "hi"⟩, ⟨true, "hello"⟩, ⟨false, "yes"⟩] lookupAB
      = addDialog emptyDialogTree [⟨true, "hello"⟩, ⟨false, "yes"⟩] lookupAB ∧
    addDialog emptyDialogTree [] lookupAB = some emptyDialogTree ∧
    (∀ h2 : Message, h2.is_bot = false →
      addDialog emptyDialogTree [h2] lookupAB = some emptyDialogTree) :=
  leading_human_turn_dropped emptyDialogTree lookupAB
    ⟨false, "hi"⟩ ⟨true, "hello"⟩ [⟨false, "yes"⟩] rfl rfl

/-- Claim C8 fails on the code: the merge stores the raw turn text without
any trimming, so a whitespace-padded agent wording is stored verbatim (not
its trimmed form), and even a fully blank first-turn text is stored at the
root. -/
theorem tree_stores_raw_untrimmed_text :
    addDialog emptyDialogTree [⟨true, "  hi  "⟩] (fun _ => none)
      = some (.mk true none ["  hi  "] []) ∧
    strip "  hi  " = "hi" ∧ ("  hi  " : String) ≠ "hi" ∧
    addDialog emptyDialogTree [⟨true, ""⟩] (fun _ => none)
      = some (.mk true none [""] []) ∧
    strip "" = "" :=
  ⟨rfl, rfl, by decide, rfl, rfl⟩

mutual

/-- The structural invariant of merge-built trees: a node carries no intent
exactly when it is an agent node, and every child sits in the replies dict
under its own intent as key. -/
def nodeInv : DialogTreeNode → Bool
  | .mk b i _ rs => ((i == none) == b) && repliesInv rs

/-- The replies part of the invariant. -/
def repliesInv : List (Option String × DialogTreeNode) → Bool
  | [] => true
  | (k, n) :: rest => (n.intent == k) && nodeInv n && repliesInv rest

end

/-- The invariant of a node, phrased through its accessors. -/
theorem nodeInv_parts (n : DialogTreeNode) :
    nodeInv n = (((n.intent == none) == n.is_bot)
      && repliesInv n.replies_by_intent) := by
  cases n
  rfl

/-- A child found in an invariant-satisfying replies dict carries the key
as its intent and satisfies the invariant itself. -/
theorem dictLookup_inv (rs : List (Option String × DialogTreeNode))
    (k : Option String) (n : DialogTreeNode) (hinv : repliesInv rs = true)
    (h : dictLookup rs k = some n) : n.intent = k ∧ nodeInv n = true := by
  induction rs with
  | nil => exact Option.noConfusion h
  | cons e rest ih =>
    obtain ⟨k', n'⟩ := e
    simp only [repliesInv, Bool.and_eq_true] at hinv
    simp only [dictLookup] at h
    by_cases hk : k' = k
    · rw [if_pos hk] at h
      cases h
      exact ⟨hk ▸ beq_iff_eq.mp hinv.1.1, hinv.1.2⟩
    · rw [if_neg hk] at h
      exact ih hinv.2 h

/-- Inserting a node under its own intent key preserves the replies
invariant. -/
theorem dictInsert_inv (rs : List (Option String × DialogTreeNode))
    (k : Option String) (n : DialogTreeNode) (hinv : repliesInv rs = true)
    (hn : nodeInv n = true) (hk : n.intent = k) :
    repliesInv (dictInsert rs k n) = true := by
  induction rs with
  | nil =>
    simp only [dictInsert, repliesInv, Bool.and_eq_true]
    exact ⟨⟨beq_iff_eq.mpr hk, hn⟩, trivial⟩
  | cons e rest ih =>
    obtain ⟨k', n'⟩ := e
    simp only [repliesInv, Bool.and_eq_true] at hinv
    simp only [dictInsert]
    by_cases hkk : k' = k
    · rw [if_pos hkk]
      simp only [repliesInv, Bool.and_eq_true]
      exact ⟨⟨beq_iff_eq.mpr hk, hn⟩, hinv.2⟩
    · rw [if_neg hkk]
      simp only [repliesInv, Bool.and_eq_true]
      exact ⟨hinv.1, ih hinv.2⟩

/-- The `add_reply` step preserves the invariant: the updated parent and
the returned child both satisfy it, the child sits under the given intent
with the given speaker flag, and the parent metadata is untouched. -/
theorem addReply_inv (node : DialogTreeNode) (b : Bool) (p : String)
    (i : Option String) (pr : DialogTreeNode × DialogTreeNode)
    (hinv : nodeInv node = true) (h : addReply node b p i = some pr) :
    nodeInv pr.1 = true ∧ nodeInv pr.2 = true ∧ pr.2.intent = i ∧
    pr.2.is_bot = b ∧ pr.1.intent = node.intent ∧ pr.1.is_bot = node.is_bot := by
  rw [nodeInv_parts, Bool.and_eq_true] at hinv
  unfold addReply at h
  by_cases h1 : (b && i.isSome) = true
  · rw [if_pos h1] at h
    exact Option.noConfusion h
  rw [if_neg h1] at h
  by_cases h2 : (!b && i.isNone) = true
  · rw [if_pos h2] at h
    exact Option.noConfusion h
  rw [if_neg h2] at h
  by_cases h3 : p = ""
  · rw [if_pos h3] at h
    exact Option.noConfusion h
  rw [if_neg h3] at h
  have hbi : ((i == none) == b) = true := by
    cases b with
    | true =>
      simp only [Bool.true_and] at h1
      have hn : i = none := by
        cases i with
        | none => rfl
        | some x => simp at h1
      simp [hn]
    | false =>
      simp only [Bool.not_false, Bool.true_and] at h2
      cases i with
      | none => simp at h2
      | some x => simp
  split at h
  · rename_i next hfound
    obtain ⟨hni, hninv⟩ :=
      dictLookup_inv node.replies_by_intent i next hinv.2 hfound
    rw [nodeInv_parts, Bool.and_eq_true] at hninv
    split at h
    · rename_i hagree
      injection h with h4
      subst h4
      refine ⟨?_, ?_, hni, hagree.1, rfl, rfl⟩
      · simp only [nodeInv, Bool.and_eq_true]
        refine ⟨hinv.1, ?_⟩
        refine dictInsert_inv node.replies_by_intent i _ hinv.2 ?_ hni
        simp only [nodeInv, Bool.and_eq_true]
        exact hninv
      · simp only [nodeInv, Bool.and_eq_true]
        exact hninv
    · exact Option.noConfusion h
  · rename_i hfound
    injection h with h4
    subst h4
    have hchild : nodeInv (DialogTreeNode.mk b i [p] []) = true := by
      simp only [nodeInv, repliesInv, Bool.and_eq_true]
      exact ⟨hbi, trivial⟩
    refine ⟨?_, hchild, rfl, rfl, rfl, rfl⟩
    simp only [nodeInv, Bool.and_eq_true]
    exact ⟨hinv.1, dictInsert_inv node.replies_by_intent i _ hinv.2 hchild rfl⟩

/-- The walk preserves the invariant and never changes the metadata of the
node it starts from. -/
theorem walkReplies_inv (g : String → Option String) :
    ∀ (ms : List Message) (node node' : DialogTreeNode),
      nodeInv node = true → walkReplies node g ms = some node' →
      nodeInv node' = true ∧ node'.intent = node.intent ∧
        node'.is_bot = node.is_bot := by
  intro ms
  induction ms with
  | nil =>
    intro node node' hinv h
    injection h with h4
    subst h4
    exact ⟨hinv, rfl, rfl⟩
  | cons m rest ih =>
    intro node node' hinv h
    unfold walkReplies at h
    split at h
    · exact Option.noConfusion h
    · split at h
      · exact Option.noConfusion h
      · rename_i node1 child haddr
        split at h
        · exact Option.noConfusion h
        · rename_i child' hwalk
          injection h with h4
          subst h4
          obtain ⟨hinv1, hinvc, hcint, _, hpint, hpbot⟩ :=
            addReply_inv node m.is_bot m.text (turnIntent g m)
              (node1, child) hinv haddr
          obtain ⟨hinvc', hcint', _⟩ := ih child child' hinvc hwalk
          refine ⟨?_, hpint, hpbot⟩
          simp only [nodeInv, Bool.and_eq_true]
          rw [nodeInv_parts, Bool.and_eq_true] at hinv1
          refine ⟨hinv1.1, ?_⟩
          refine dictInsert_inv node1.replies_by_intent (turnIntent g m)
            child' hinv1.2 hinvc' ?_
          rw [hcint']
          exact hcint

/-- The merge of one transcript preserves the invariant. -/
theorem addDialog_inv (t : DialogTreeNode) (msgs : List Message)
    (g : String → Option String) (t' : DialogTreeNode)
    (hinv : nodeInv t = true) (h : addDialog t msgs g = some t') :
    nodeInv t' = true := by
  have hroot : ∀ (x : String), nodeInv (DialogTreeNode.mk t.is_bot t.intent
      (setInsert t.phrases x) t.replies_by_intent) = true := by
    intro x
    simp only [nodeInv, Bool.and_eq_true]
    rw [nodeInv_parts, Bool.and_eq_true] at hinv
    exact hinv
  cases msgs with
  | nil =>
    injection h with h4
    subst h4
    exact hinv
  | cons m0 rest =>
    cases hb : m0.is_bot with
    | true =>
      simp only [addDialog, hb, if_true, Bool.not_true, Bool.false_eq_true] at h
      exact (walkReplies_inv g rest _ t' (hroot m0.text) h).1
    | false =>
      simp only [addDialog, hb, Bool.false_eq_true, if_false] at h
      cases rest with
      | nil =>
        injection h with h4
        subst h4
        exact hinv
      | cons first others =>
        cases hf : first.is_bot with
        | true =>
          simp only [hf, Bool.not_true, Bool.false_eq_true, if_false] at h
          exact (walkReplies_inv g others _ t' (hroot first.text) h).1
        | false =>
          simp only [hf, Bool.not_false, if_true] at h
          exact Option.noConfusion h

/-- On an invariant-satisfying node, with the caller contract of
`add_dialog` satisfied, the consistency asserts of `add_reply` cannot
fire: an existing child under the key already agrees on both metadata
fields, and the call returns a value. -/
theorem addReply_total (node : DialogTreeNode) (b : Bool) (p : String)
    (i : Option String) (hinv : nodeInv node = true)
    (hb1 : b = true → i = none) (hb2 : b = false → i ≠ none) (hp : p ≠ "") :
    (∀ c, dictLookup node.replies_by_intent i = some c →
      c.is_bot = b ∧ c.intent = i) ∧ (addReply node b p i).isSome = true := by
  rw [nodeInv_parts, Bool.and_eq_true] at hinv
  have hkey : ∀ c, dictLookup node.replies_by_intent i = some c →
      c.is_bot = b ∧ c.intent = i := by
    intro c hc
    obtain ⟨hci, hcinv⟩ := dictLookup_inv node.replies_by_intent i c hinv.2 hc
    rw [nodeInv_parts, Bool.and_eq_true] at hcinv
    have hcb := hcinv.1
    rw [hci] at hcb
    refine ⟨?_, hci⟩
    cases b with
    | true =>
      have hn := hb1 rfl
      subst hn
      simpa using hcb
    | false =>
      have hn := hb2 rfl
      cases i with
      | none => exact absurd rfl hn
      | some x =>
        simpa using hcb
  refine ⟨hkey, ?_⟩
  unfold addReply
  have g1 : (b && i.isSome) = false := by
    cases b with
    | true =>
      rw [hb1 rfl]
      rfl
    | false => rfl
  have g2 : (!b && i.isNone) = false := by
    cases b with
    | true => rfl
    | false =>
      have hn := hb2 rfl
      cases i with
      | none => exact absurd rfl hn
      | some x => rfl
  rw [g1, g2]
  simp only [Bool.false_eq_true, if_false]
  rw [if_neg hp]
  split
  · rename_i next hfound
    rw [if_pos ⟨(hkey next hfound).1, (hkey next hfound).2⟩]
    rfl
  · rfl

/-- Claim C10: the empty root satisfies the structural invariant (`intent`
is null exactly on agent nodes, each child is keyed by its own intent),
every merge preserves it, and on any invariant-satisfying tree the
cross-transcript consistency check of `add_reply` can never fail: an
existing child under the same key already agrees on speaker flag and
intent, and the call returns a node. -/
theorem merge_tree_invariant :
    nodeInv emptyDialogTree = true ∧
    (∀ (t : DialogTreeNode) (msgs : List Message) (g : String → Option String)
      (t' : DialogTreeNode), nodeInv t = true → addDialog t msgs g = some t' →
      nodeInv t' = true) ∧
    (∀ (t : DialogTreeNode) (b : Bool) (p : String) (i : Option String),
      nodeInv t = true → (b = true → i = none) → (b = false → i ≠ none) →
      p ≠ "" →
      (∀ c, dictLookup t.replies_by_intent i = some c →
        c.is_bot = b ∧ c.intent = i) ∧ (addReply t b p i).isSome = true) :=
  ⟨rfl, addDialog_inv, addReply_total⟩

/-- Witness for C10 on the concrete two-branch tree built in the C5
scenario. -/
theorem merge_tree_invariant_witness :
    nodeInv (.mk true none ["hi"]
      [(some "A", .mk false (some "A") ["yes"]
          [(none, .mk true none ["ok"] [])])]) = true :=
  merge_tree_invariant.2.1 emptyDialogTree
    [⟨true, "hi"⟩, ⟨false, "yes"⟩, ⟨true, "ok"⟩] lookupAB
    (.mk true none ["hi"]
      [(some "A", .mk false (some "A") ["yes"]
          [(none, .mk true none ["ok"] [])])]) rfl rfl

mutual

/-- All phrases stored anywhere in a tree. -/
def nodePhrases : DialogTreeNode → List String
  | .mk _ _ ph rs => ph ++ repliesPhrases rs

/-- All phrases stored anywhere below a replies dict. -/
def repliesPhrases : List (Option String × DialogTreeNode) → List String
  | [] => []
  | (_, n) :: rest => nodePhrases n ++ repliesPhrases rest

end

/-- The phrase collection of a node, phrased through its accessors. -/
theorem nodePhrases_parts (n : DialogTreeNode) :
    nodePhrases n = n.phrases ++ repliesPhrases n.replies_by_intent := by
  cases n
  rfl

/-- Membership after a `set.add`. -/
theorem mem_setInsert (s : List String) (x q : String)
    (h : q ∈ setInsert s x) : q ∈ s ∨ q = x := by
  unfold setInsert at h
  split at h
  · exact Or.inl h
  · rcases List.mem_append.mp h with h1 | h1
    · exact Or.inl h1
    · exact Or.inr (List.mem_singleton.mp h1)

/-- Phrases below a dict after insertion come from the old dict or from the
inserted node. -/
theorem mem_repliesPhrases_dictInsert
    (rs : List (Option String × DialogTreeNode)) (k : Option String)
    (n : DialogTreeNode) (q : String)
    (h : q ∈ repliesPhrases (dictInsert rs k n)) :
    q ∈ repliesPhrases rs ∨ q ∈ nodePhrases n := by
  induction rs with
  | nil =>
    simp only [dictInsert, repliesPhrases, List.append_nil] at h
    exact Or.inr h
  | cons e rest ih =>
    obtain ⟨k', n'⟩ := e
    simp only [dictInsert] at h
    by_cases hk : k' = k
    · rw [if_pos hk] at h
      simp only [repliesPhrases] at h ⊢
      rcases List.mem_append.mp h with h1 | h1
      · exact Or.inr h1
      · exact Or.inl (List.mem_append.mpr (Or.inr h1))
    · rw [if_neg hk] at h
      simp only [repliesPhrases] at h ⊢
      rcases List.mem_append.mp h with h1 | h1
      · exact Or.inl (List.mem_append.mpr (Or.inl h1))
      · rcases ih h1 with h2 | h2
        · exact Or.inl (List.mem_append.mpr (Or.inr h2))
        · exact Or.inr h2

/-- Phrases of a found child are phrases of the dict. -/
theorem mem_repliesPhrases_of_dictLookup
    (rs : List (Option String × DialogTreeNode)) (k : Option String)
    (n : DialogTreeNode) (hl : dictLookup rs k = some n) (q : String)
    (h : q ∈ nodePhrases n) : q ∈ repliesPhrases rs := by
  induction rs with
  | nil => exact Option.noConfusion hl
  | cons e rest ih =>
    obtain ⟨k', n'⟩ := e
    simp only [dictLookup] at hl
    simp only [repliesPhrases]
    by_cases hk : k' = k
    · rw [if_pos hk] at hl
      injection hl with h4
      subst h4
      exact List.mem_append.mpr (Or.inl h)
    · rw [if_neg hk] at hl
      exact List.mem_append.mpr (Or.inr (ih hl))

/-- Every phrase present after an `add_reply` was already in the tree or is
the added raw phrase, for the parent and for the returned child alike. -/
theorem addReply_phrases (node : DialogTreeNode) (b : Bool) (p : String)
    (i : Option String) (pr : DialogTreeNode × DialogTreeNode)
    (h : addReply node b p i = some pr) :
    (∀ q, q ∈ nodePhrases pr.1 → q ∈ nodePhrases node ∨ q = p) ∧
    (∀ q, q ∈ nodePhrases pr.2 → q ∈ nodePhrases node ∨ q = p) := by
  unfold addReply at h
  by_cases h1 : (b && i.isSome) = true
  · rw [if_pos h1] at h
    exact Option.noConfusion h
  rw [if_neg h1] at h
  by_cases h2 : (!b && i.isNone) = true
  · rw [if_pos h2] at h
    exact Option.noConfusion h
  rw [if_neg h2] at h
  by_cases h3 : p = ""
  · rw [if_pos h3] at h
    exact Option.noConfusion h
  rw [if_neg h3] at h
  split at h
  · rename_i next hfound
    split at h
    · injection h with h4
      subst h4
      have hnext : ∀ q, q ∈ nodePhrases (DialogTreeNode.mk next.is_bot
          next.intent (setInsert next.phrases p) next.replies_by_intent) →
          q ∈ nodePhrases node ∨ q = p := by
        intro q hq
        simp only [nodePhrases] at hq
        rcases List.mem_append.mp hq with h5 | h5
        · rcases mem_setInsert next.phrases p q h5 with h6 | h6
          · refine Or.inl ?_
            rw [nodePhrases_parts]
            refine List.mem_append.mpr (Or.inr ?_)
            refine mem_repliesPhrases_of_dictLookup node.replies_by_intent
              i next hfound q ?_
            rw [nodePhrases_parts]
            exact List.mem_append.mpr (Or.inl h6)
          · exact Or.inr h6
        · refine Or.inl ?_
          rw [nodePhrases_parts]
          refine List.mem_append.mpr (Or.inr ?_)
          refine mem_repliesPhrases_of_dictLookup node.replies_by_intent
            i next hfound q ?_
          rw [nodePhrases_parts]
          exact List.mem_append.mpr (Or.inr h5)
      constructor
      · intro q hq
        simp only [nodePhrases] at hq
        rcases List.mem_append.mp hq with h5 | h5
        · refine Or.inl ?_
          rw [nodePhrases_parts]
          exact List.mem_append.mpr (Or.inl h5)
        · rcases mem_repliesPhrases_dictInsert node.replies_by_intent
            i _ q h5 with h6 | h6
          · refine Or.inl ?_
            rw [nodePhrases_parts]
            exact List.mem_append.mpr (Or.inr h6)
          · exact hnext q h6
      · exact hnext
    · exact Option.noConfusion h
  · injection h with h4
    subst h4
    have hnext : ∀ q, q ∈ nodePhrases (DialogTreeNode.mk b i [p] []) →
        q ∈ nodePhrases node ∨ q = p := by
      intro q hq
      simp only [nodePhrases, repliesPhrases, List.append_nil] at hq
      exact Or.inr (List.mem_singleton.mp hq)
    constructor
    · intro q hq
      simp only [nodePhrases] at hq
      rcases List.mem_append.mp hq with h5 | h5
      · refine Or.inl ?_
        rw [nodePhrases_parts]
        exact List.mem_append.mpr (Or.inl h5)
      · rcases mem_repliesPhrases_dictInsert node.replies_by_intent
          i _ q h5 with h6 | h6
        · refine Or.inl ?_
          rw [nodePhrases_parts]
          exact List.mem_append.mpr (Or.inr h6)
        · exact hnext q h6
    · exact hnext

/-- Every phrase present after the walk was already in the starting node or
is the raw text of one of the walked turns. -/
theorem walkReplies_phrases (g : String → Option String) :
    ∀ (ms : List Message) (node node' : DialogTreeNode),
      walkReplies node g ms = some node' →
      ∀ q, q ∈ nodePhrases node' →
        q ∈ nodePhrases node ∨ q ∈ ms.map Message.text := by
  intro ms
  induction ms with
  | nil =>
    intro node node' h q hq
    injection h with h4
    subst h4
    exact Or.inl hq
  | cons m rest ih =>
    intro node node' h q hq
    unfold walkReplies at h
    split at h
    · exact Option.noConfusion h
    · split at h
      · exact Option.noConfusion h
      · rename_i node1 child haddr
        split at h
        · exact Option.noConfusion h
        · rename_i child' hwalk
          injection h with h4
          subst h4
          obtain ⟨hp1, hp2⟩ := addReply_phrases node m.is_bot m.text
            (turnIntent g m) (node1, child) haddr
          simp only [nodePhrases] at hq
          simp only [List.map_cons]
          rcases List.mem_append.mp hq with h5 | h5
          · have hq1 : q ∈ nodePhrases node1 := by
              rw [nodePhrases_parts]
              exact List.mem_append.mpr (Or.inl h5)
            rcases hp1 q hq1 with h6 | h6
            · exact Or.inl h6
            · refine Or.inr ?_
              rw [h6]
              exact List.mem_cons_self _ _
          · rcases mem_repliesPhrases_dictInsert node1.replies_by_intent
              (turnIntent g m) child' q h5 with h6 | h6
            · have hq1 : q ∈ nodePhrases node1 := by
                rw [nodePhrases_parts]
                exact List.mem_append.mpr (Or.inr h6)
              rcases hp1 q hq1 with h7 | h7
              · exact Or.inl h7
              · refine Or.inr ?_
                rw [h7]
                exact List.mem_cons_self _ _
            · rcases ih child child' hwalk q h6 with h7 | h7
              · rcases hp2 q h7 with h8 | h8
                · exact Or.inl h8
                · refine Or.inr ?_
                  rw [h8]
                  exact List.mem_cons_self _ _
              · exact Or.inr (List.mem_cons_of_mem _ h7)

/-- Every phrase present after one merge was already in the tree or is the
raw text of one of the transcript turns. -/
theorem addDialog_phrases (t : DialogTreeNode) (msgs : List Message)
    (g : String → Option String) (t' : DialogTreeNode)
    (h : addDialog t msgs g = some t') :
    ∀ q, q ∈ nodePhrases t' → q ∈ nodePhrases t ∨ q ∈ msgs.map Message.text := by
  have hroot : ∀ (x q : String),
      q ∈ nodePhrases (DialogTreeNode.mk t.is_bot t.intent
        (setInsert t.phrases x) t.replies_by_intent) →
      q ∈ nodePhrases t ∨ q = x := by
    intro x q hq
    simp only [nodePhrases] at hq
    rcases List.mem_append.mp hq with h5 | h5
    · rcases mem_setInsert t.phrases x q h5 with h6 | h6
      · refine Or.inl ?_
        rw [nodePhrases_parts]
        exact List.mem_append.mpr (Or.inl h6)
      · exact Or.inr h6
    · refine Or.inl ?_
      rw [nodePhrases_parts]
      exact List.mem_append.mpr (Or.inr h5)
  cases msgs with
  | nil =>
    injection h with h4
    subst h4
    intro q hq
    exact Or.inl hq
  | cons m0 rest =>
    cases hb : m0.is_bot with
    | true =>
      simp only [addDialog, hb, if_true, Bool.not_true, Bool.false_eq_true] at h
      intro q hq
      rcases walkReplies_phrases g rest _ t' h q hq with h5 | h5
      · rcases hroot m0.text q h5 with h6 | h6
        · exact Or.inl h6
        · refine Or.inr ?_
          simp only [List.map_cons]
          rw [h6]
          exact List.mem_cons_self _ _
      · refine Or.inr ?_
        simp only [List.map_cons]
        exact List.mem_cons_of_mem _ h5
    | false =>
      simp only [addDialog, hb, Bool.false_eq_true, if_false] at h
      cases rest with
      | nil =>
        injection h with h4
        subst h4
        intro q hq
        exact Or.inl hq
      | cons first others =>
        cases hf : first.is_bot with
        | true =>
          simp only [hf, Bool.not_true, Bool.false_eq_true, if_false] at h
          intro q hq
          rcases walkReplies_phrases g others _ t' h q hq with h5 | h5
          · rcases hroot first.text q h5 with h6 | h6
            · exact Or.inl h6
            · refine Or.inr ?_
              simp only [List.map_cons]
              rw [h6]
              exact List.mem_cons_of_mem _ (List.mem_cons_self _ _)
          · refine Or.inr ?_
            simp only [List.map_cons]
            exact List.mem_cons_of_mem _ (List.mem_cons_of_mem _ h5)
        | false =>
          simp only [hf, Bool.not_false, if_true] at h
          exact Option.noConfusion h

/-- Claim C8, amended: every phrase a merge stores anywhere in the tree is
the exact raw text of some turn of the transcript (no trimming is applied),
and `add_reply` rejects the empty phrase by assertion, so only the root
position can store an empty text. -/
theorem tree_phrase_provenance :
    (∀ (t : DialogTreeNode) (msgs : List Message) (g : String → Option String)
      (t' : DialogTreeNode), addDialog t msgs g = some t' →
      ∀ q, q ∈ nodePhrases t' →
        q ∈ nodePhrases t ∨ q ∈ msgs.map Message.text) ∧
    (∀ (n : DialogTreeNode) (b : Bool) (i : Option String),
      addReply n b "" i = none) := by
  constructor
  · exact addDialog_phrases
  · intro n b i
    unfold addReply
    by_cases h1 : (b && i.isSome) = true
    · rw [if_pos h1]
    · rw [if_neg h1]
      by_cases h2 : (!b && i.isNone) = true
      · rw [if_pos h2]
      · rw [if_neg h2]
        rw [if_pos rfl]

/-- Witness for the amended C8 at the whitespace-padded transcript. -/
theorem tree_phrase_provenance_witness :
    "  hi  " ∈ nodePhrases emptyDialogTree ∨
      "  hi  " ∈ ([⟨true, "  hi  "⟩] : List Message).map Message.text :=
  tree_phrase_provenance.1 emptyDialogTree [⟨true, "  hi  "⟩] (fun _ => none)
    (.mk true none ["  hi  "] []) rfl "  hi  "
    (by simp [nodePhrases, repliesPhrases])
